import Mathlib

/-!
# A shallow embedding of libborr's parser and variable-expansion engine

This file embeds, in Lean 4, the behaviour of the C++ sources of the
`libborr` translation-file library:

* `src/include/borr/extensions.hpp` — trimming and splitting utilities;
* `src/include/borr/langversion.hpp` — the `langversion` value type and its
  dotted-triplet parser;
* `src/include/borr/language.hpp` / `src/src/language.cpp` — the line
  classifier, the document builder (`parseLine` / `fromString`) and the
  variable-expansion engine (`getString` / `expandVariable`).

Modelling conventions:

* C++ `std::string` is modelled as `List Char` (`Str` below).  Concrete
  inputs in theorems are written as Lean string literals converted with
  `String.toList`.
* `size_t` is modelled as `Nat`; `std::string::npos` (= `SIZE_MAX` on the
  64-bit targets the library is built for) is the constant `NPOS = 2^64 - 1`.
* `std::map` is modelled as an association list; the code only ever uses
  `find`, `emplace` (insert-if-absent) and `operator[]` assignment, all of
  which are key-based, so the map's internal ordering is immaterial.
* C++ exceptions (`std::runtime_error` from `language::fromString`,
  `std::invalid_argument` / `std::out_of_range` from `std::stoull` and
  `std::string::substr`) are modelled with `Except CppError`.
* `std::regex` patterns are embedded as executable character-list matchers
  with exactly the ECMAScript semantics of the patterns that appear in the
  source (each matcher's doc comment records the pattern and the reasoning).
* The static expander registries (`language::_callbackList` and
  `language::_defaultExpandersList`) are threaded through the expansion
  engine explicitly as an `ExpanderEnv` value.  The five default expanders
  call `localtime` and the `resources.hpp` header (absent from the sources),
  so their result strings are kept abstract: theorems quantify over them.
* The `printf` calls in `language::parseLine` are I/O side effects with no
  bearing on the parsed state and are not modelled.
-/

deriving instance DecidableEq for Except

namespace borr

/-- C++ `std::string`, modelled as its character list. -/
abbrev Str := List Char

/-- `std::string::npos` / `SIZE_MAX` on the 64-bit targets the library
supports (`size_t` is 64 bits wide). -/
def NPOS : Nat := 2 ^ 64 - 1

/-- The C++ exceptions the embedded code can raise:
`std::runtime_error` (thrown by `language::fromString` when splitting
produces no token), `std::invalid_argument` and `std::out_of_range`
(thrown by `std::stoull` and `std::string::substr`). -/
inductive CppError where
  | runtimeError : CppError
  | invalidArgument : CppError
  | outOfRange : CppError
deriving DecidableEq, Repr

/-- `isspace` in the default C locale, which is also the ECMAScript `\s`
class on the ASCII inputs the library handles: space, `\t`, `\n`,
vertical tab (0x0B), form feed (0x0C), `\r`. -/
def isCppSpaceChar (c : Char) : Bool :=
  c == ' ' || c == '\t' || c == '\n' || c == '\x0b' || c == '\x0c' || c == '\r'

/-! ## `borr::extensions` (extensions.hpp): trimming and splitting -/

/-- The predicate captured by the `shouldTrimChar` lambda in
`extensions::trimStart` / `extensions::trimEnd`: when the trim set is
empty fall back to `isspace`, otherwise membership in the set. -/
def shouldTrimChar (trimChar : Str) (c : Char) : Bool :=
  if trimChar.isEmpty then isCppSpaceChar c else trimChar.contains c

/-- `extensions::trimStart`: erase the longest prefix of characters
satisfying `shouldTrimChar`. -/
def trimStart (nonTrimmed : Str) (trimChar : Str) : Str :=
  nonTrimmed.dropWhile (shouldTrimChar trimChar)

/-- `extensions::trimEnd`: erase the longest suffix of characters
satisfying `shouldTrimChar` (the C++ erases from the reverse iterator
found by `find_if`). -/
def trimEnd (nonTrimmed : Str) (trimChar : Str) : Str :=
  (nonTrimmed.reverse.dropWhile (shouldTrimChar trimChar)).reverse

/-- `extensions::trim`: `trimStart` after `trimEnd`. -/
def trim (nonTrimmed : Str) (trimChar : Str) : Str :=
  trimStart (trimEnd nonTrimmed trimChar) trimChar

/-- The default trim set `" \t\r"` of the `extensions` functions. -/
def defaultTrimChars : Str := [' ', '\t', '\r']

/-- The trim set `"[]"` used on section names and multiline field names. -/
def bracketChars : Str := ['[', ']']

/-- The trim set `"\" \t\r"` used on translation values in
`language::isTranslation`. -/
def quoteTrimChars : Str := ['"', ' ', '\t', '\r']

/-- Fuelled worker for `extensions::splitString`.  The C++ loop walks
`find_first_not_of` / `find_first_of` positions; each iteration consumes at
least one character, so the semantics is: the maximal non-empty runs of
non-delimiter characters, in order.  The fuel (`s.length + 1` at the call
site) strictly exceeds the number of iterations, so the `0` case is
unreachable; it exists only to make the recursion structural. -/
def splitTokensF (delims : Str) : Nat → Str → List Str
  | 0, _ => []
  | _, [] => []
  | fuel + 1, c :: rest =>
    if delims.contains c then splitTokensF delims fuel rest
    else
      (c :: rest.takeWhile (fun d => !delims.contains d)) ::
        splitTokensF delims fuel (rest.dropWhile (fun d => !delims.contains d))

/-- `extensions::splitString`'s token list: maximal non-empty runs of
non-delimiter characters, truncated to the first `maxLen` tokens (the C++
loop stops as soon as `outTokens.size()` reaches `maxLen`, discarding the
rest of the input).  The C++ function's `bool` result is
`tokens ≠ []`, checked at each call site. -/
def splitString (s : Str) (delims : Str) (maxLen : Nat) : List Str :=
  (splitTokensF delims (s.length + 1) s).take maxLen

/-! ## Association-list model of `std::map` -/

/-- `std::map::find`, as key lookup in the association list. -/
def assocFind? {α : Type} (k : Str) : List (Str × α) → Option α
  | [] => none
  | (k', v) :: rest => if k = k' then some v else assocFind? k rest

/-- `std::map::emplace` / `try_emplace`: insert only when the key is
absent (position in the list is immaterial for key-based access). -/
def assocEmplace {α : Type} (k : Str) (v : α) (m : List (Str × α)) :
    List (Str × α) :=
  if (assocFind? k m).isSome then m else m ++ [(k, v)]

/-- `std::map::operator[] = v` on a key: overwrite when present, append
when absent. -/
def assocAssign {α : Type} (k : Str) (v : α) : List (Str × α) → List (Str × α)
  | [] => [(k, v)]
  | (k', v') :: rest =>
    if k = k' then (k, v) :: rest else (k', v') :: assocAssign k v rest

/-! ## `std::string` helpers used by the source -/

/-- Worker for `findFrom`: the index (counting from `i`) of the first
element satisfying `p`. -/
def findIdxAux {α : Type} (p : α → Bool) : List α → Nat → Option Nat
  | [], _ => none
  | a :: l, i => if p a then some i else findIdxAux p l (i + 1)

/-- `std::string::find(char, pos)`: the least index `≥ start` holding `c`,
or none (C++ `npos`). -/
def findFrom (s : Str) (c : Char) (start : Nat) : Option Nat :=
  findIdxAux (fun d => d == c) (s.drop start) start

/-- `std::string::substr(pos, count)`: throws `std::out_of_range` when
`pos` exceeds the length, otherwise up to `count` characters from `pos`. -/
def substrChk (s : Str) (pos count : Nat) : Except CppError Str :=
  if s.length < pos then .error .outOfRange
  else .ok ((s.drop pos).take count)

/-- `'0' ≤ c ≤ '9'`. -/
def isDigitChar (c : Char) : Bool :=
  decide ('0' ≤ c) && decide (c ≤ '9')

/-- `std::stoull` (base 10): skip `isspace` characters, an optional sign
(`-` wraps the value modulo `2^64`, exactly as `strtoull` does), then a
non-empty maximal digit run; `std::invalid_argument` when no digit is
found, `std::out_of_range` when the digit value exceeds `2^64 - 1`. -/
def stoull (s : Str) : Except CppError Nat :=
  let s1 := s.dropWhile isCppSpaceChar
  let signAndRest : Bool × Str :=
    match s1 with
    | '-' :: rest => (true, rest)
    | '+' :: rest => (false, rest)
    | _ => (false, s1)
  let digits := signAndRest.2.takeWhile isDigitChar
  if digits.isEmpty then .error .invalidArgument
  else
    let v := digits.foldl (fun a c => a * 10 + (c.toNat - '0'.toNat)) 0
    if NPOS < v then .error .outOfRange
    else .ok (if signAndRest.1 then (2 ^ 64 - v % 2 ^ 64) % 2 ^ 64 else v)

/-! ## `borr::langversion` (langversion.hpp) -/

/-- The `langversion` value type: `m_major`, `m_minor`, `m_revision`, each a
`size_t` initialised to `string::npos` by the default constructor. -/
structure langversion where
  major : Nat
  minor : Nat
  revision : Nat
deriving DecidableEq, Repr

/-- A default-constructed `langversion`: all three components `npos`. -/
def langversion.init : langversion := ⟨NPOS, NPOS, NPOS⟩

/-- The body of the `while` loop of `langversion::fromString`, fuelled.
Each iteration moves `previousPeriod` past the dot just found, so the
number of iterations is at most the field's length; the fuel
(`verField.length + 1` at the call site) makes the `0` case unreachable.
The loop: while another `'.'` is found, possibly reset `previousPeriod` to
`npos` (which makes the subsequent `substr` throw), then `stoull` the
slice into the first still-unset (= `npos`) component, or return silently
once all three are set. -/
def verLoopF : Nat → Str → Nat → langversion → Except CppError langversion
  | 0, _, _, ver => .ok ver
  | fuel + 1, verField, prev, ver =>
    match findFrom verField '.' prev with
    | none => .ok ver
    | some next =>
      let prev' := if verField.length - 1 ≤ prev then NPOS else prev
      match substrChk verField prev' (next - prev') with
      | .error e => .error e
      | .ok piece =>
        if ver.major = NPOS then
          match stoull piece with
          | .error e => .error e
          | .ok v => verLoopF fuel verField (next + 1) { ver with major := v }
        else if ver.minor = NPOS then
          match stoull piece with
          | .error e => .error e
          | .ok v => verLoopF fuel verField (next + 1) { ver with minor := v }
        else if ver.revision = NPOS then
          match stoull piece with
          | .error e => .error e
          | .ok v => verLoopF fuel verField (next + 1) { ver with revision := v }
        else .ok ver

/-- `langversion::fromString(verField, outVersion)`: run the dot-scanning
loop from position 0 on the given (caller-initialised) version value. -/
def langversionFromString (verField : Str) (outVersion : langversion) :
    Except CppError langversion :=
  verLoopF (verField.length + 1) verField 0 outVersion

/-! ## The regular expressions of `language.hpp`, as executable matchers

`std::regex` defaults to ECMAScript grammar.  The character class `[A-z_]`
is the code-point range `'A'` (65) to `'z'` (122) — which also contains
`[ \ ] ^ _ `` ` `` — together with the redundant `'_'`; `[A-z0-9_]` adds the
digits.  Notably, neither class contains `':'` (58). -/

/-- Membership in `[A-z_]`. -/
def isVarStartChar (c : Char) : Bool :=
  (decide ('A' ≤ c) && decide (c ≤ 'z')) || c == '_'

/-- Membership in `[A-z0-9_]`. -/
def isVarTailChar (c : Char) : Bool :=
  isVarStartChar c || isDigitChar c

/-- Whether `VARIABLE_REGEX` = `\$\{[A-z_][A-z0-9_]+\}` matches at the
head of the string, and the inner name when it does.  The `+` is greedy,
but since `'}'` is not in `[A-z0-9_]` the run of tail characters is forced
to be the maximal one followed immediately by `'}'`; backtracking to a
shorter run can never succeed, so the match is this deterministic scan. -/
def tryVarAt : Str → Option Str
  | '$' :: '{' :: c :: rest =>
    if isVarStartChar c then
      match rest.dropWhile isVarTailChar with
      | '}' :: _ =>
        if (rest.takeWhile isVarTailChar).isEmpty then none
        else some (c :: rest.takeWhile isVarTailChar)
      | _ => none
    else none
  | _ => none

/-- `language::containsVariable`: `regex_search` with `VARIABLE_REGEX`
finds the leftmost match `"${name}"`; the C++ then returns
`trim(trim(match, "$"), "{}")`, which strips the leading `"${"` and the
trailing `"}"` and nothing else (the name's first character is in `[A-z_]`
so it is neither `'{'` nor `'}'`), i.e. exactly the inner name — which the
scan below yields directly. -/
def containsVariable : Str → Option Str
  | [] => none
  | c :: rest =>
    match tryVarAt (c :: rest) with
    | some name => some name
    | none => containsVariable rest

/-- Whether `SECTION_REGEX` = `^\[[A-z_]([A-z_]+)?\]$` matches the whole
string: a `'['`, a non-empty run of `[A-z_]` characters, a final `']'`.
The class `[A-z_]` contains `'['` and `']'` themselves, so with
backtracking the pattern accepts exactly the strings of the form
`'[' ++ mid ++ "]"` with `mid` non-empty and every character of `mid` in
the class — equivalently: first char `'['`, last char `']'`, at least 3
characters, and everything strictly between in the class. -/
def sectionRegexMatch : Str → Bool
  | '[' :: rest =>
    rest.getLast? == some ']' && !rest.dropLast.isEmpty &&
      rest.dropLast.all isVarStartChar
  | _ => false

/-- `language::isSection`: `regex_match(trim(line), SECTION_REGEX)`; on
success the out-parameter receives `trim(line, "[]")` — the *untrimmed*
line with only `'['`/`']'` characters stripped from its two ends. -/
def isSection (line : Str) : Option Str :=
  if sectionRegexMatch (trim line defaultTrimChars) then
    some (trim line bracketChars)
  else none

/-- Whether `TRANSLATION_REGEX` =
`^[A-z_][A-z0-9_]+(\[\])?[\s]+?=[\s]+?"([^"]+)?"$` matches the whole
string.  Since `'['` and `']'` are themselves in `[A-z0-9_]`, the
`(\[\])?` group is absorbed by the preceding `+` and adds nothing.  The
classes `[A-z0-9_]`, `[\s]`, `'='` and `'"'` are pairwise disjoint, so the
decomposition — name of ≥ 2 chars, whitespace, `'='`, whitespace, `'"'`,
a possibly-empty quote-free body, final `'"'` — is deterministic and
laziness of `+?` is irrelevant. -/
def translationRegexMatch : Str → Bool
  | [] => false
  | c :: rest =>
    isVarStartChar c &&
    !(rest.takeWhile isVarTailChar).isEmpty &&
    (let r1 := rest.dropWhile isVarTailChar
     !(r1.takeWhile isCppSpaceChar).isEmpty &&
     match r1.dropWhile isCppSpaceChar with
     | '=' :: r2 =>
       !(r2.takeWhile isCppSpaceChar).isEmpty &&
       (match r2.dropWhile isCppSpaceChar with
        | '"' :: r3 =>
          !r3.isEmpty && r3.getLast? == some '"' &&
            r3.dropLast.all (fun d => !(d == '"'))
        | _ => false)
     | _ => false)

/-- `language::isTranslation`: on a regex match, split at the *first*
`'='`; the field name is `trim(line.substr(0, pos - 1))` (the dropped
character before `'='` is necessarily whitespace, the regex guarantees
one) and the value is `trim(line.substr(pos + 1), "\" \t\r")`.  A match
guarantees `'='` occurs, so the `getD 0` fallback is unreachable. -/
def isTranslation (line : Str) : Option (Str × Str) :=
  if translationRegexMatch line then
    let posOfDelim := (findFrom line '=' 0).getD 0
    some (trim (line.take (posOfDelim - 1)) defaultTrimChars,
          trim (line.drop (posOfDelim + 1)) quoteTrimChars)
  else none

/-- `language::isEmptyOrComment`: the default-trimmed line is empty or its
first character is `'#'`. -/
def isEmptyOrComment (line : Str) : Bool :=
  match trim line defaultTrimChars with
  | [] => true
  | c :: _ => c == '#'

/-- `language::isMultilineField`: the last character is `']'` and the one
before it is `'['` (the C++ dereferences `rbegin()` and `rbegin() + 1`,
which is undefined for fields shorter than 2 characters; the only caller
passes names the translation regex forces to be ≥ 2 characters long). -/
def isMultilineField (field : Str) : Bool :=
  match field.reverse with
  | ']' :: '[' :: _ => true
  | _ => false

/-- Whether `COMMENT_REGEX` = `#[^\n]+[^"]$` (from
`language::removeInlineComments`) matches at the head of the string,
the string being the whole remaining suffix of the line: a `'#'`,
at least one non-newline character, then one final character (anchored by
`$`) that is not `'"'`.  Because of the `$` anchor the match always
extends to the end, so matching *here* means: the suffix starts with
`'#'`, has length ≥ 3, all its characters strictly between the `'#'` and
the last one are non-newline, and its last character is not `'"'`. -/
def commentMatchHere : Str → Bool
  | '#' :: rest =>
    decide (2 ≤ rest.length) && rest.dropLast.all (fun d => !(d == '\n')) &&
      !(rest.getLast? == some '"')
  | _ => false

/-- `regex_search` with `COMMENT_REGEX`: the leftmost position where the
pattern matches; the matched text is that whole suffix. -/
def commentFind : Str → Option Str
  | [] => none
  | c :: rest =>
    if commentMatchHere (c :: rest) then some (c :: rest)
    else commentFind rest

/-- `std::string`'s `copy.replace(copy.find(pat), pat.length, repl)`
idiom: replace the first occurrence of `pat` (as a substring) by `repl`;
unchanged when `pat` does not occur. -/
def replaceFirst : Str → Str → Str → Str
  | [], _, _ => []
  | c :: rest, pat, repl =>
    if pat.isPrefixOf (c :: rest) then repl ++ (c :: rest).drop pat.length
    else c :: replaceFirst rest pat repl

/-- `language::removeInlineComments`: search `COMMENT_REGEX`; on a match,
erase the first occurrence of the matched text (the `smatch` holds only
the full match — the pattern has no capture group); finally
`extensions::trim` the result. -/
def removeInlineComments (line : Str) : Str :=
  match commentFind line with
  | none => trim line defaultTrimChars
  | some m => trim (replaceFirst line m []) defaultTrimChars

/-! ## The document builder (`language::parseLine` / `language::fromString`) -/

/-- `sect_t = map<string, string>`. -/
abbrev Sect := List (Str × Str)

/-- `dict_t = map<string, sect_t>`. -/
abbrev Dict := List (Str × Sect)

/-- The per-document state of a `language` object: the translation
dictionary, the metadata fields, and the `m_currentSection` parsing
cursor. -/
structure LanguageState where
  translationDict : Dict
  langVer : langversion
  langId : Str
  langDescription : Str
  currentSection : Str
deriving DecidableEq, Repr

/-- A freshly constructed and `clear()`ed `language`: empty dictionary,
default (`npos`-valued) version, empty strings. -/
def initLanguage : LanguageState :=
  ⟨[], langversion.init, [], [], []⟩

/-- `language::getSection`: dictionary lookup, no expansion. -/
def getSection (dict : Dict) (sectionName : Str) : Option Sect :=
  assocFind? sectionName dict

/-- `language::getLanguageVersion`. -/
def getLanguageVersion (st : LanguageState) : langversion := st.langVer

/-- `LANG_ID_FIELD`. -/
def langIdField : Str := "lang_id".toList

/-- `LANG_VER_FIELD`. -/
def langVerField : Str := "lang_ver".toList

/-- `LANG_DESC_FIELD`. -/
def langDescField : Str := "lang_desc".toList

/-- `language::parseLine`: skip empty/comment lines; strip inline
comments; a section header updates `m_currentSection`; a non-translation
line is skipped silently; in root scope only the three metadata fields are
recognised (the version one may throw, via `langversion::fromString` and
`stoull`); in a section, create the section map if needed, then append
(`"\n"`-joined) when the marker-stripped key exists *and* the raw field
name carries the `[]` marker, otherwise `emplace` (which does **not**
overwrite an existing entry). -/
def parseLine (st : LanguageState) (line : Str) :
    Except CppError LanguageState :=
  if isEmptyOrComment line then .ok st
  else
    let commentlessLine := removeInlineComments line
    match isSection commentlessLine with
    | some sectName => .ok { st with currentSection := sectName }
    | none =>
      match isTranslation commentlessLine with
      | none => .ok st
      | some (field, translation) =>
        if st.currentSection.isEmpty then
          if field = langDescField then
            .ok { st with langDescription := translation }
          else if field = langIdField then
            .ok { st with langId := translation }
          else if field = langVerField then
            match langversionFromString translation st.langVer with
            | .error e => .error e
            | .ok ver => .ok { st with langVer := ver }
          else .ok st
        else
          let dict1 :=
            if (assocFind? st.currentSection st.translationDict).isSome then
              st.translationDict
            else st.translationDict ++ [(st.currentSection, [])]
          let sect := (assocFind? st.currentSection dict1).getD []
          let trimmedField := trim field bracketChars
          let sect' :=
            if (assocFind? trimmedField sect).isSome && isMultilineField field
            then
              assocAssign trimmedField
                ((assocFind? trimmedField sect).getD [] ++ '\n' :: translation)
                sect
            else assocEmplace trimmedField translation sect
          .ok { st with translationDict := assocAssign st.currentSection sect' dict1 }

/-- `language::fromString`: split the contents on `"\n"` (throwing
`std::runtime_error` when no token results), clear the object, then fold
`parseLine` over the lines. -/
def fromString (fContents : Str) : Except CppError LanguageState :=
  let tokens := splitString fContents ['\n'] NPOS
  if tokens.isEmpty then .error .runtimeError
  else tokens.foldlM parseLine initLanguage

/-! ## The variable-expansion engine (`language::getString` and friends) -/

/-- `varexpansioncallback_t`. -/
abbrev Expander := Str → Str

/-- The two static registries of `language`: the custom
`_callbackList` and the built-in `_defaultExpandersList`.  The five
built-in expanders (`date`, `time`, `lib`, `os`, `liburl`) produce
host- and time-dependent strings via `localtime` and the `resources`
header, so the lists' resolver functions are arbitrary parameters here. -/
structure ExpanderEnv where
  callbackList : List (Str × Expander)
  defaultExpandersList : List (Str × Expander)

/-- `language::addVarExpansionCallback`: `try_emplace` on the custom
callback list — inserts only when the name is absent; the returned `Bool`
is `.second` of `try_emplace`, i.e. whether insertion happened. -/
def addVarExpansionCallback (varName : Str) (cb : Expander)
    (callbackList : List (Str × Expander)) : List (Str × Expander) × Bool :=
  if (assocFind? varName callbackList).isSome then (callbackList, false)
  else (callbackList ++ [(varName, cb)], true)

/-- `language::removeVarExpansionCallback`: erase the entry when present,
silently do nothing otherwise. -/
def removeVarExpansionCallback (varName : Str)
    (callbackList : List (Str × Expander)) : List (Str × Expander) :=
  match callbackList with
  | [] => []
  | (k, v) :: rest =>
    if varName = k then rest else (k, v) :: removeVarExpansionCallback varName rest

/-- Modelled from the spec: `extensions::stringReplace` is declared in a
revision of the `extensions` header that is not among the sources; the
spec's expansion loop says «replace the **first** occurrence of `${name}`
with `resolveVariable(name)`, then re-scan the updated string», so it is
the replace-first-occurrence operation. -/
def stringReplace (str fromPat toRepl : Str) : Str :=
  replaceFirst str fromPat toRepl

/-- The three mutually recursive pieces of the expansion engine, defined
by primitive recursion on a fuel counter so that every recursive call
(`getString`'s `while` loop, and the `expandVariable` → `getString`
cross-reference recursion, both of which the C++ leaves unbounded) is
strictly fuel-decreasing.  Result `none` means the fuel ran out — so
`∀ fuel, … = none` states that the C++ computation never terminates —
and `some r` is the C++ result.  The triple is
(`getString`'s loop on a translation value, `expandVariable`,
`getString`). -/
def engineF : Nat →
    (ExpanderEnv → Dict → Str → Option Str) ×
    (ExpanderEnv → Dict → Str → Option Str) ×
    (ExpanderEnv → Dict → Str → Str → Bool → Option (Option Str))
  | 0 =>
    (fun _ _ _ => none, fun _ _ _ => none, fun _ _ _ _ _ => none)
  | fuel + 1 =>
    let prev := engineF fuel
    ( -- the `while (containsVariable …) stringReplace(…)` loop of getString
      fun env dict translation =>
        match containsVariable translation with
        | none => some translation
        | some varName =>
          match prev.2.1 env dict varName with
          | none => none
          | some value =>
            prev.1 env dict
              (stringReplace translation ('$' :: '{' :: (varName ++ ['}'])) value),
      -- language::expandVariable
      fun env dict varName =>
        match assocFind? varName env.callbackList with
        | some cb => some (cb varName)
        | none =>
          match assocFind? varName env.defaultExpandersList with
          | some cb => some (cb varName)
          | none =>
            if varName.contains ':' then
              match splitString varName [':'] 2 with
              | [a, b] =>
                match prev.2.2 env dict a b true with
                | none => none
                | some r => some (r.getD [])
              | _ => some []
            else some [],
      -- language::getString
      fun env dict sectName field _expandVariables =>
        match getSection dict sectName with
        | none => some none
        | some sect =>
          match assocFind? field sect with
          | none => some none
          | some translation =>
            match prev.1 env dict translation with
            | none => none
            | some t => some (some t) )

/-- The `while (containsVariable(translation, varName))` loop in
`language::getString`, fuelled. -/
def expandLoop (fuel : Nat) (env : ExpanderEnv) (dict : Dict)
    (translation : Str) : Option Str :=
  (engineF fuel).1 env dict translation

/-- `language::expandVariable`, fuelled: custom callbacks first, then the
built-in defaults, then — when the name contains `':'` — the
cross-reference lookup `getString(tokens[0], tokens[1])` (recursive, with
expansion), and the empty string when nothing matches. -/
def expandVariable (fuel : Nat) (env : ExpanderEnv) (dict : Dict)
    (varName : Str) : Option Str :=
  (engineF fuel).2.1 env dict varName

/-- `language::getString(section, field, expandVariables)`, fuelled.  The
`expandVariables` parameter is declared but **never read** by the C++
body: the expansion loop runs unconditionally. -/
def getString (fuel : Nat) (env : ExpanderEnv) (dict : Dict)
    (sectName field : Str) (expandVariables : Bool) : Option (Option Str) :=
  (engineF fuel).2.2 env dict sectName field expandVariables

/-! ## Association-list lemmas -/

theorem assocFind?_assign_self {α : Type} (k : Str) (v : α) (m : List (Str × α)) :
    assocFind? k (assocAssign k v m) = some v := by
  induction m with
  | nil => simp [assocAssign, assocFind?]
  | cons p rest ih =>
    obtain ⟨k', v'⟩ := p
    by_cases h : k = k' <;> simp [assocAssign, assocFind?, h, ih]

theorem assocAssign_eq_self {α : Type} {k : Str} {v : α} {m : List (Str × α)}
    (h : assocFind? k m = some v) : assocAssign k v m = m := by
  induction m with
  | nil => simp [assocFind?] at h
  | cons p rest ih =>
    obtain ⟨k', v'⟩ := p
    by_cases hk : k = k'
    · simp [assocFind?, hk] at h
      simp [assocAssign, hk, h]
    · simp [assocFind?, hk] at h
      simp [assocAssign, hk, ih h]

theorem assocFind?_append_self {α : Type} {k : Str} (v : α) {m : List (Str × α)}
    (h : assocFind? k m = none) : assocFind? k (m ++ [(k, v)]) = some v := by
  induction m with
  | nil => simp [assocFind?]
  | cons p rest ih =>
    obtain ⟨k', v'⟩ := p
    by_cases hk : k = k' <;> simp [assocFind?, hk] at h ⊢
    exact ih h

theorem assocFind?_append_ne {α : Type} {k : Str} (k' : Str) (v : α)
    (m : List (Str × α)) (h : k ≠ k') :
    assocFind? k (m ++ [(k', v)]) = assocFind? k m := by
  induction m with
  | nil => simp [assocFind?, h]
  | cons p rest ih =>
    obtain ⟨k0, v0⟩ := p
    by_cases hk : k = k0 <;> simp [assocFind?, hk, ih]

theorem findIdxAux_eq_none {α : Type} {p : α → Bool} {l : List α}
    (h : ∀ a ∈ l, p a = false) : ∀ i, findIdxAux p l i = none := by
  induction l with
  | nil => intro i; rfl
  | cons a rest ih =>
    intro i
    have ha := h a (by simp)
    simp [findIdxAux, ha]
    exact ih (fun b hb => h b (by simp [hb])) (i + 1)

/-! ## Unfolding equations for the fuelled expansion engine -/

theorem expandLoop_zero (env : ExpanderEnv) (dict : Dict) (t : Str) :
    expandLoop 0 env dict t = none := rfl

theorem expandLoop_succ (fuel : Nat) (env : ExpanderEnv) (dict : Dict) (t : Str) :
    expandLoop (fuel + 1) env dict t =
      match containsVariable t with
      | none => some t
      | some varName =>
        match expandVariable fuel env dict varName with
        | none => none
        | some value =>
          expandLoop fuel env dict
            (stringReplace t ('$' :: '{' :: (varName ++ ['}'])) value) := rfl

theorem expandVariable_succ (fuel : Nat) (env : ExpanderEnv) (dict : Dict)
    (varName : Str) :
    expandVariable (fuel + 1) env dict varName =
      match assocFind? varName env.callbackList with
      | some cb => some (cb varName)
      | none =>
        match assocFind? varName env.defaultExpandersList with
        | some cb => some (cb varName)
        | none =>
          if varName.contains ':' then
            match splitString varName [':'] 2 with
            | [a, b] =>
              match getString fuel env dict a b true with
              | none => none
              | some r => some (r.getD [])
            | _ => some []
          else some [] := rfl

theorem getString_zero (env : ExpanderEnv) (dict : Dict) (sectName field : Str)
    (expandVariables : Bool) :
    getString 0 env dict sectName field expandVariables = none := rfl

theorem getString_succ (fuel : Nat) (env : ExpanderEnv) (dict : Dict)
    (sectName field : Str) (expandVariables : Bool) :
    getString (fuel + 1) env dict sectName field expandVariables =
      match getSection dict sectName with
      | none => some none
      | some sect =>
        match assocFind? field sect with
        | none => some none
        | some translation =>
          match expandLoop fuel env dict translation with
          | none => none
          | some t => some (some t) := rfl

/-! ## C3: cyclic expansion

The document `[sec]` / `ab = "${aa}"` together with a registered custom
expander that maps `aa` back to the string `"${aa}"` realises the spec's
cyclic scenario.  Each pass of `getString`'s `while` loop rewrites the
translation to itself, so the loop never exits: the fuelled embedding
returns `none` (fuel exhausted) for *every* fuel value. -/

/-- The cyclically-expanding value `"${aa}"`. -/
def cycVal : Str := "$\x7baa\x7d".toList

/-- The registry state for the cyclic scenario: one custom expander
mapping `aa` to `"${aa}"`; the built-in defaults are arbitrary (they are
never consulted — the custom layer is checked first). -/
def cycEnv (defaults : List (Str × Expander)) : ExpanderEnv :=
  ⟨[("aa".toList, fun _ => cycVal)], defaults⟩

/-- The parsed dictionary for the cyclic scenario:
`[sec]` with `ab = "${aa}"`. -/
def cycDict : Dict := [("sec".toList, [("ab".toList, cycVal)])]

theorem expandLoop_cyc (defaults : List (Str × Expander)) :
    ∀ fuel, expandLoop fuel (cycEnv defaults) cycDict cycVal = none := by
  intro fuel
  induction fuel with
  | zero => rfl
  | succ n ih =>
    rw [expandLoop_succ]
    have hcv : containsVariable cycVal = some "aa".toList := by decide
    simp only [hcv]
    cases n with
    | zero => rfl
    | succ m =>
      rw [expandVariable_succ]
      have hfind : assocFind? "aa".toList (cycEnv defaults).callbackList
          = some (fun _ => cycVal) := by
        simp [cycEnv, assocFind?]
      simp only [hfind]
      have hrepl :
          stringReplace cycVal ('$' :: '{' :: ("aa".toList ++ ['}'])) cycVal
            = cycVal := by decide
      simpa [hrepl] using ih

/-- C3.  The claim says a cyclically-expanding field makes `getString`
fail with a `CyclicExpansion` error under a bounded iteration cap.  The
code has no such cap and no such error: on the cyclic field the
`while (containsVariable …)` loop rewrites `"${aa}"` to itself forever,
so for every fuel bound the embedded computation is still unfinished —
the C++ call never returns. -/
theorem C3_thm : ∀ (fuel : Nat) (defaults : List (Str × Expander)),
    getString fuel (cycEnv defaults) cycDict "sec".toList "ab".toList true
      = none := by
  intro fuel defaults
  cases fuel with
  | zero => rfl
  | succ n =>
    rw [getString_succ]
    have h1 : getSection cycDict "sec".toList = some [("ab".toList, cycVal)] := by
      decide
    have h2 : assocFind? "ab".toList [("ab".toList, cycVal)] = some cycVal := by
      decide
    simp only [h1, h2, expandLoop_cyc defaults n]

/-! ## C5: cross-reference placeholders are never detected

`VARIABLE_REGEX` is `\$\{[A-z_][A-z0-9_]+\}` and `':'` (code point 58) is
in neither `[A-z]` (65–122) nor `[0-9]` nor `{'_'}` — so a placeholder
`${section:field}` never matches, `containsVariable` returns `false` on
it, and `getString` returns the stored value verbatim.  The repository's
own tests (`testContainsVariable`, `testVariableExpansion` in
`LanguageClassTests.cpp`) assert the opposite, so this is a defect of the
code, not of the claim. -/

/-- The stored value `"The date is ${test:test_01}"` from the repository's
`testVariableExpansion` document (field `test_03`). -/
def crossRefVal : Str := "The date is $\x7btest:test_01\x7d".toList

/-- The sections relevant to the cross-reference scenario, as
`parseLine` stores them. -/
def crossRefDict : Dict :=
  [("test".toList,
    [("test_01".toList, "A".toList), ("test_03".toList, crossRefVal)])]

/-- C5.  Whatever the registries hold and however much fuel the engine
gets, `containsVariable` does not detect the `${test:test_01}`
cross-reference and `getString` hands the stored value back verbatim —
the referenced field is never resolved. -/
theorem C5_thm : ∀ (fuel : Nat) (env : ExpanderEnv),
    containsVariable "$\x7btest:test_01\x7d".toList = none ∧
    getString (fuel + 2) env crossRefDict "test".toList "test_03".toList true
      = some (some crossRefVal) := by
  intro fuel env
  refine ⟨by decide, ?_⟩
  show getString ((fuel + 1) + 1) env crossRefDict "test".toList "test_03".toList
      true = some (some crossRefVal)
  rw [getString_succ]
  have h1 : getSection crossRefDict "test".toList
      = some [("test_01".toList, "A".toList), ("test_03".toList, crossRefVal)] := by
    decide
  have h2 : assocFind? "test_03".toList
      [("test_01".toList, "A".toList), ("test_03".toList, crossRefVal)]
      = some crossRefVal := by decide
  simp only [h1, h2]
  rw [expandLoop_succ]
  have h3 : containsVariable crossRefVal = none := by decide
  simp only [h3]

/-! ## C10: single-character placeholders are left verbatim -/

theorem containsVariable_cons (c : Char) (rest : Str) :
    containsVariable (c :: rest) =
      match tryVarAt (c :: rest) with
      | some name => some name
      | none => containsVariable rest := rfl

theorem tryVarAt_singleton (c : Char) : tryVarAt ['$', '{', c, '}'] = none := by
  have h1 : isVarTailChar '}' = false := by decide
  cases h : isVarStartChar c with
  | false => simp [tryVarAt, h]
  | true => simp [tryVarAt, h, List.dropWhile, List.takeWhile, h1]

theorem tryVarAt_pair (c : Char) : tryVarAt [c, '}'] = none := by
  by_cases h : c = '$'
  · subst h; decide
  · simp [tryVarAt]

/-- The pattern `\$\{[A-z_][A-z0-9_]+\}` needs a head character *and* at
least one tail character before `'}'`, so `"${c}"` contains no variable,
whatever the single character `c` is. -/
theorem C10_containsVariable_none (c : Char) :
    containsVariable ['$', '{', c, '}'] = none := by
  rw [containsVariable_cons, tryVarAt_singleton]
  rw [containsVariable_cons, show tryVarAt ['{', c, '}'] = none from by
    by_cases h : c = '$' <;> simp [tryVarAt]]
  rw [containsVariable_cons, tryVarAt_pair]
  decide

/-- C10.  A stored value that is exactly a single-character placeholder
`"${c}"` is reported variable-free by `containsVariable`, and `getString`
with expansion enabled returns it verbatim. -/
theorem C10_thm (c : Char) (env : ExpanderEnv) (dict : Dict)
    (sectName fieldName : Str) (sect : Sect) (fuel : Nat)
    (hs : assocFind? sectName dict = some sect)
    (hf : assocFind? fieldName sect = some ['$', '{', c, '}']) :
    containsVariable ['$', '{', c, '}'] = none ∧
    getString (fuel + 2) env dict sectName fieldName true
      = some (some ['$', '{', c, '}']) := by
  refine ⟨C10_containsVariable_none c, ?_⟩
  show getString ((fuel + 1) + 1) env dict sectName fieldName true
    = some (some ['$', '{', c, '}'])
  rw [getString_succ]
  simp only [getSection, hs, hf]
  rw [expandLoop_succ]
  simp only [C10_containsVariable_none c]

/-! ## C8: what `isSection` accepts and what it returns

`SECTION_REGEX` is `^\[[A-z_]([A-z_]+)?\]$`: its identifier class is
`[A-z_]`, which contains **no digits** (so `"[sec1]"` is rejected) but
does contain the ASCII punctuation between `'Z'` and `'a'`.  On a match
the out-parameter receives `trim(line, "[]")`, which strips only
`'['`/`']'` characters from the two ends of the *untrimmed* line — so a
line with surrounding whitespace yields a name still carrying that
whitespace. -/

theorem sectionRegexMatch_iff (s : Str) :
    sectionRegexMatch s = true ↔
      ∃ id, s = '[' :: (id ++ [']']) ∧ id ≠ [] ∧ id.all isVarStartChar = true := by
  cases s with
  | nil => simp [sectionRegexMatch]
  | cons c rest =>
    by_cases hc : c = '['
    · subst hc
      simp only [sectionRegexMatch, Bool.and_eq_true, beq_iff_eq,
        Bool.not_eq_true', List.isEmpty_eq_false, List.cons.injEq, true_and]
      constructor
      · rintro ⟨⟨hlast, hne⟩, hall⟩
        refine ⟨rest.dropLast, ?_, hne, hall⟩
        exact (List.dropLast_append_getLast? _ hlast).symm
      · rintro ⟨id, hrest, hne, hall⟩
        subst hrest
        refine ⟨⟨?_, ?_⟩, ?_⟩
        · simp [List.getLast?_concat]
        · simp [List.dropLast_concat, hne]
        · simpa [List.dropLast_concat] using hall
    · have hm : sectionRegexMatch (c :: rest) = false := by
        rw [sectionRegexMatch.eq_def]
        split
        · next heq =>
          injection heq with h1 _
          exact absurd h1 hc
        · rfl
      rw [hm]
      simp only [Bool.false_eq_true, false_iff]
      rintro ⟨id, hrest, -, -⟩
      injection hrest with h1 _
      exact absurd h1 hc

/-- C8 (amended).  `isSection` matches exactly the lines that trim (on
`" \t\r"`) to `'['` + a non-empty run of `[A-z_]` characters + `']'` —
digits are *not* allowed, while the class also admits the ASCII
punctuation between `'Z'` and `'a'` — and on a match it returns the line
with only `'['`/`']'` characters stripped from its two ends (which is the
bare identifier only when the line carries no surrounding whitespace);
every other line yields no match. -/
theorem C8_thm (line out : Str) :
    isSection line = some out ↔
      ((∃ id, trim line defaultTrimChars = '[' :: (id ++ [']']) ∧ id ≠ [] ∧
          id.all isVarStartChar = true) ∧
        out = trim line bracketChars) := by
  unfold isSection
  by_cases h : sectionRegexMatch (trim line defaultTrimChars) = true
  · simp only [h, if_true, Option.some.injEq]
    constructor
    · intro ho
      exact ⟨(sectionRegexMatch_iff _).mp h, ho.symm⟩
    · rintro ⟨-, ho⟩
      exact ho.symm
  · simp only [Bool.not_eq_true] at h
    simp only [h, Bool.false_eq_true, if_false]
    constructor
    · intro hx
      cases hx
    · rintro ⟨hex, -⟩
      rw [← sectionRegexMatch_iff] at hex
      rw [h] at hex
      cases hex

/-- C8 (counterexample to the claim as stated).  The claim's own example
`"[sec1]"` — a digit in the identifier tail — is rejected by
`isSection`, because `[A-z_]` contains no digits. -/
theorem C8_counterexample : isSection "[sec1]".toList = none := by decide

/-! ## C9: `addVarExpansionCallback` is insert-if-absent -/

/-- C9.  `try_emplace` semantics: the returned flag is true exactly when
no custom expander was registered under the name; an existing entry
leaves the registry unchanged (first registration wins); and a successful
insertion makes the name resolve to the given callback. -/
theorem C9_thm (varName : Str) (cb : Expander) (l : List (Str × Expander)) :
    ((addVarExpansionCallback varName cb l).2 = true
        ↔ assocFind? varName l = none) ∧
    ((assocFind? varName l).isSome = true
        → (addVarExpansionCallback varName cb l).1 = l) ∧
    (assocFind? varName l = none
        → assocFind? varName (addVarExpansionCallback varName cb l).1
            = some cb) := by
  unfold addVarExpansionCallback
  cases h : assocFind? varName l with
  | none =>
    refine ⟨by simp, by simp, fun _ => ?_⟩
    simpa using assocFind?_append_self cb h
  | some cb0 => simp

/-! ## C1: the revision of a well-formed `M.N.R` version is never parsed

For a value with exactly two dots the `while` loop of
`langversion::fromString` runs exactly twice — once per dot — assigning
only `m_major` and `m_minor`; `m_revision` keeps its `npos`
initialisation.  The repository's own test `testParseLine_LangVerLine`
(`lang_ver = "1.9.0"`, expecting revision 0) fails against this code. -/

/-- C1.  Parsing the document `lang_ver = "1.9.0"` yields version
`(1, 9, npos)`: `getLanguageVersion` reports the unset sentinel
`2^64 - 1` as the revision, not 0. -/
theorem C1_eval :
    (borr.fromString "lang_ver = \"1.9.0\"".toList).map getLanguageVersion
      = Except.ok ⟨1, 9, NPOS⟩ := by decide

/-! ## C2: no `MalformedVersion` error exists

`language::fromString` can only throw `std::runtime_error` (empty split)
and whatever `langversion::fromString` lets escape from `stoull` /
`substr`; a `lang_ver` value without any `'.'` makes the version loop
exit immediately, accepting the malformed value silently. -/

/-- C2 (amended).  A `lang_ver` value containing no `'.'` character is
accepted without any error: `langversion::fromString` returns leaving the
version exactly as it was (all three components still the `npos`
sentinel when it was default-initialised, as in `parseLine`). -/
theorem C2_thm (v : Str) (ver : langversion)
    (h : v.all (fun c => !(c == '.')) = true) :
    langversionFromString v ver = Except.ok ver := by
  unfold langversionFromString
  have hf : findFrom v '.' 0 = none := by
    apply findIdxAux_eq_none
    intro a ha
    have := List.all_eq_true.mp h a (by simpa using ha)
    simpa using this
  simp [verLoopF, hf]

theorem C2_witness :
    ("abc".toList.all (fun c => !(c == '.')) = true) ∧
    langversionFromString "abc".toList langversion.init
      = Except.ok langversion.init :=
  ⟨by decide, C2_thm "abc".toList langversion.init (by decide)⟩

/-- C2 (counterexample to the claim as stated).  The document
`lang_ver = "abc"` has a `lang_ver` value that is *not* three
dot-separated integers, yet parsing completes without any error and the
version stays at the unset sentinel — no `MalformedVersion` failure is
raised. -/
theorem C2_counterexample :
    (borr.fromString "lang_ver = \"abc\"".toList).map getLanguageVersion
      = Except.ok ⟨NPOS, NPOS, NPOS⟩ := by decide

/-! ## C4: a trailing comment makes the strip start inside the quotes

`COMMENT_REGEX` = `#[^\n]+[^"]$` only refuses to match when the line's
*last* character is `'"'`.  On the spec's example the line ends in
`g`, so the leftmost `'#'` — the one inside the quoted value — starts the
match, and everything from it to the end of the line is erased. -/

/-- C4.  `removeInlineComments` on `translation = "a#b" # trailing`
returns `translation = "a` — the quoted `'#'` and everything after it is
stripped, not just the trailing comment.  (On the repository's own test
line, which ends with `'"'`, the regex correctly refuses to match and the
quoted `'#'` survives — the guard only covers that special shape.) -/
theorem C4_eval :
    removeInlineComments "translation = \"a#b\" # trailing".toList
        = "translation = \"a".toList ∧
    removeInlineComments "translation = \"this # does not match\"".toList
        = "translation = \"this # does not match\"".toList := by decide

/-- An empty registry pair (for concrete witnesses whose lookups never
reach the registries). -/
def envEmpty : ExpanderEnv := ⟨[], []⟩

/-- The one-section dictionary holding `f = "${a}"`. -/
def c10Dict : Dict := [("s".toList, [("f".toList, ['$', '{', 'a', '}'])])]

/-- `Except.ok a >>= f` reduces to `f a`. -/
theorem exceptOkBind {ε α β : Type} (a : α) (f : α → Except ε β) :
    (Except.ok a : Except ε α) >>= f = f a := rfl

/-- `(Except.ok a).map f` reduces to `Except.ok (f a)`. -/
theorem exceptMapOk {ε α β : Type} (a : α) (f : α → β) :
    (Except.ok a : Except ε α).map f = Except.ok (f a) := rfl

/-! ## C7: multiline fields accumulate newline-joined values

A sequence of declarations `k[] = "v₁"`, …, `k[] = "vₙ"` in one section
stores `v₁ ++ "\n" ++ … ++ "\n" ++ vₙ` under the marker-stripped key `k`:
the first declaration `emplace`s `v₁`, every further one finds the key and
(because the raw name carries the `[]` marker) appends `"\n" ++ vᵢ`. -/

/-- The newline join of a list of values, in declaration order. -/
def joinNL : List Str → Str
  | [] => []
  | [v] => v
  | v :: vs => v ++ '\n' :: joinNL vs

/-- One declaration item for C7: `(line, (rawFieldName, value))`.  The
predicate says the line classifies as a translation of that field/value,
is no section header or comment, the raw name carries the `[]` marker,
and stripping the marker yields the key `k`. -/
def c7LineOk (k : Str) (x : Str × Str × Str) : Bool :=
  !(isEmptyOrComment x.1) &&
  decide (isSection (removeInlineComments x.1) = none) &&
  decide (isTranslation (removeInlineComments x.1) = some (x.2.1, x.2.2)) &&
  isMultilineField x.2.1 &&
  decide (trim x.2.1 bracketChars = k)

theorem foldl_join_shift (r : List (Str × Str × Str)) :
    ∀ (a w : Str),
      r.foldl (fun acc x => acc ++ '\n' :: x.2.2) (a ++ '\n' :: w)
        = a ++ '\n' :: r.foldl (fun acc x => acc ++ '\n' :: x.2.2) w := by
  induction r with
  | nil => intro a w; rfl
  | cons u r' ih =>
    intro a w
    simp only [List.foldl_cons, List.append_assoc, List.cons_append]
    exact ih a (w ++ '\n' :: u.2.2)

theorem joinNL_eq_foldl (vs : List (Str × Str × Str)) :
    ∀ (x : Str × Str × Str),
      joinNL ((x :: vs).map (fun y => y.2.2))
        = vs.foldl (fun acc y => acc ++ '\n' :: y.2.2) x.2.2 := by
  induction vs with
  | nil => intro x; rfl
  | cons w r ih =>
    intro x
    simp only [List.map_cons, List.foldl_cons]
    have h1 : joinNL (x.2.2 :: w.2.2 :: r.map (fun y => y.2.2))
        = x.2.2 ++ '\n' :: joinNL (w.2.2 :: r.map (fun y => y.2.2)) := by
      cases r <;> rfl
    rw [h1]
    have h2 := ih w
    simp only [List.map_cons] at h2
    rw [h2, foldl_join_shift]

/-- A multiline declaration whose key is already stored appends
`"\n" ++ value` to the stored value. -/
theorem c7_step (st : LanguageState) (l f v k : Str) (sect : Sect) (acc : Str)
    (h1 : isEmptyOrComment l = false)
    (h2 : isSection (removeInlineComments l) = none)
    (h3 : isTranslation (removeInlineComments l) = some (f, v))
    (h4 : isMultilineField f = true)
    (h5 : trim f bracketChars = k)
    (hcs : st.currentSection.isEmpty = false)
    (hD : assocFind? st.currentSection st.translationDict = some sect)
    (hk : assocFind? k sect = some acc) :
    parseLine st l = .ok { st with translationDict :=
      (assocAssign st.currentSection (assocAssign k (acc ++ '\n' :: v) sect)
        st.translationDict) } := by
  simp only [parseLine, h1, Bool.false_eq_true, if_false, h2, h3, hcs, hD,
    Option.isSome_some, if_true, Option.getD_some, h5, hk, h4, Bool.and_self]

/-- A declaration whose key is not yet stored (whether or not the section
map itself exists) `emplace`s the value. -/
theorem c7_first (st : LanguageState) (l f v k : Str)
    (h1 : isEmptyOrComment l = false)
    (h2 : isSection (removeInlineComments l) = none)
    (h3 : isTranslation (removeInlineComments l) = some (f, v))
    (h5 : trim f bracketChars = k)
    (hcs : st.currentSection.isEmpty = false)
    (hnone : assocFind? k
      ((assocFind? st.currentSection st.translationDict).getD []) = none) :
    ∃ sect', parseLine st l = .ok { st with translationDict :=
        (assocAssign st.currentSection sect'
          (if (assocFind? st.currentSection st.translationDict).isSome then
            st.translationDict
           else st.translationDict ++ [(st.currentSection, [])])) } ∧
      assocFind? k sect' = some v := by
  cases hD : assocFind? st.currentSection st.translationDict with
  | none =>
    refine ⟨[(k, v)], ?_, by simp [assocFind?]⟩
    have hD1 : assocFind? st.currentSection
        (st.translationDict ++ [(st.currentSection, [])]) = some [] :=
      assocFind?_append_self _ hD
    simp only [parseLine, h1, Bool.false_eq_true, if_false, h2, h3, hcs, hD,
      Option.isSome_none, if_false, hD1, Option.getD_some, h5,
      assocFind?, Bool.false_and, assocEmplace, List.nil_append]
  | some sect =>
    rw [hD] at hnone
    simp only [Option.getD_some] at hnone
    refine ⟨sect ++ [(k, v)], ?_, assocFind?_append_self v hnone⟩
    simp only [parseLine, h1, Bool.false_eq_true, if_false, h2, h3, hcs, hD,
      Option.isSome_some, if_true, Option.getD_some, h5, hnone,
      Option.isSome_none, Bool.false_and, if_false, assocEmplace]

/-- Folding `parseLine` over further multiline declarations of key `k`
keeps appending `"\n" ++ value` in order. -/
theorem c7_loop (k : Str) (items : List (Str × Str × Str)) :
    ∀ (st : LanguageState) (sect : Sect) (acc : Str),
    st.currentSection.isEmpty = false →
    items.all (c7LineOk k) = true →
    assocFind? st.currentSection st.translationDict = some sect →
    assocFind? k sect = some acc →
    ∃ st' sect',
      List.foldlM parseLine st (items.map (fun x => x.1)) = Except.ok st' ∧
      st'.currentSection = st.currentSection ∧
      assocFind? st'.currentSection st'.translationDict = some sect' ∧
      assocFind? k sect'
        = some (items.foldl (fun a x => a ++ '\n' :: x.2.2) acc) := by
  induction items with
  | nil =>
    intro st sect acc hcs hall hD hk
    exact ⟨st, sect, rfl, rfl, hD, hk⟩
  | cons x rest ih =>
    intro st sect acc hcs hall hD hk
    rw [List.all_cons, Bool.and_eq_true] at hall
    obtain ⟨hx, hrest⟩ := hall
    simp only [c7LineOk, Bool.and_eq_true, Bool.not_eq_true', decide_eq_true_eq]
      at hx
    obtain ⟨⟨⟨⟨hx1, hx2⟩, hx3⟩, hx4⟩, hx5⟩ := hx
    have hstep := c7_step st x.1 x.2.1 x.2.2 k sect acc hx1 hx2 hx3 hx4 hx5
      hcs hD hk
    simp only [List.map_cons, List.foldlM_cons, hstep, exceptOkBind]
    obtain ⟨st', sect', hfold, hcs', hD', hk'⟩ :=
      ih { st with translationDict :=
            (assocAssign st.currentSection
              (assocAssign k (acc ++ '\n' :: x.2.2) sect) st.translationDict) }
        (assocAssign k (acc ++ '\n' :: x.2.2) sect) (acc ++ '\n' :: x.2.2)
        hcs hrest (assocFind?_assign_self _ _ _) (assocFind?_assign_self _ _ _)
    refine ⟨st', sect', hfold, hcs', hD', ?_⟩
    simpa using hk'

/-- C7.  From a state whose current section does not yet hold the key
`k`, folding `parseLine` over any non-empty sequence of multiline
declarations of `k` succeeds and stores exactly the newline-join of the
declared values, in declaration order. -/
theorem C7_thm (st : LanguageState) (k : Str) (items : List (Str × Str × Str))
    (hne : items.isEmpty = false)
    (hcs : st.currentSection.isEmpty = false)
    (hall : items.all (c7LineOk k) = true)
    (hnone : assocFind? k
      ((assocFind? st.currentSection st.translationDict).getD []) = none) :
    (List.foldlM parseLine st (items.map (fun x => x.1))).map
      (fun st' => assocFind? k
        ((assocFind? st.currentSection st'.translationDict).getD []))
      = Except.ok (some (joinNL (items.map (fun x => x.2.2)))) := by
  cases items with
  | nil => simp at hne
  | cons x rest =>
    rw [List.all_cons, Bool.and_eq_true] at hall
    obtain ⟨hx, hrest⟩ := hall
    simp only [c7LineOk, Bool.and_eq_true, Bool.not_eq_true', decide_eq_true_eq]
      at hx
    obtain ⟨⟨⟨⟨hx1, hx2⟩, hx3⟩, hx4⟩, hx5⟩ := hx
    obtain ⟨sect1, hfirst, hk1⟩ :=
      c7_first st x.1 x.2.1 x.2.2 k hx1 hx2 hx3 hx5 hcs hnone
    obtain ⟨st', sect', hfold, hcs', hD', hk'⟩ :=
      c7_loop k rest
        { st with translationDict :=
            (assocAssign st.currentSection sect1
              (if (assocFind? st.currentSection st.translationDict).isSome then
                st.translationDict
               else st.translationDict ++ [(st.currentSection, [])])) }
        sect1 x.2.2 hcs hrest (assocFind?_assign_self _ _ _) hk1
    rw [List.map_cons, List.foldlM_cons, hfirst, exceptOkBind, hfold]
    rw [hcs'] at hD'
    simp only [exceptMapOk, hD', Option.getD_some, hk', joinNL_eq_foldl rest x]

/-- The two declarations of the spec's example:
`greeting[] = "Hello"` then `greeting[] = "World"`. -/
def c7Items : List (Str × Str × Str) :=
  [("greeting[] = \"Hello\"".toList, ("greeting[]".toList, "Hello".toList)),
   ("greeting[] = \"World\"".toList, ("greeting[]".toList, "World".toList))]

/-- A parser state sitting inside section `sec` with nothing stored. -/
def c7State : LanguageState := ⟨[], langversion.init, [], [], "sec".toList⟩

theorem C7_witness :
    c7Items.isEmpty = false ∧
    c7State.currentSection.isEmpty = false ∧
    c7Items.all (c7LineOk "greeting".toList) = true ∧
    assocFind? "greeting".toList
      ((assocFind? c7State.currentSection c7State.translationDict).getD [])
      = none ∧
    (List.foldlM parseLine c7State (c7Items.map (fun x => x.1))).map
      (fun st' => assocFind? "greeting".toList
        ((assocFind? c7State.currentSection st'.translationDict).getD []))
      = Except.ok (some "Hello\nWorld".toList) :=
  ⟨by decide, by decide, by decide, by decide,
   (C7_thm c7State "greeting".toList c7Items (by decide) (by decide) (by decide)
      (by decide)).trans (by decide)⟩

/-! ## C6: duplicate non-multiline fields — `emplace` means *first* write wins

`parseLine` inserts section entries with `std::map::emplace`, which does
not overwrite: a second declaration of the same non-multiline key leaves
the stored value (and in fact the whole parser state) unchanged. -/

/-- C6 (amended).  A translation line whose marker-stripped key already
exists in the current section, and whose raw field name does *not* carry
the `[]` multiline marker, leaves the parser state completely unchanged:
the later declaration is silently ignored. -/
theorem C6_thm (st : LanguageState) (line f v : Str)
    (h1 : isEmptyOrComment line = false)
    (h2 : isSection (removeInlineComments line) = none)
    (h3 : isTranslation (removeInlineComments line) = some (f, v))
    (h4 : st.currentSection.isEmpty = false)
    (h5 : (assocFind? (trim f bracketChars)
            ((assocFind? st.currentSection st.translationDict).getD [])).isSome
          = true)
    (h6 : isMultilineField f = false) :
    parseLine st line = .ok st := by
  cases hD : assocFind? st.currentSection st.translationDict with
  | none =>
    rw [hD] at h5
    simp [assocFind?] at h5
  | some sect =>
    rw [hD] at h5
    simp only [Option.getD_some] at h5
    simp only [parseLine, h1, Bool.false_eq_true, if_false, h2, h3, h4, hD,
      Option.isSome_some, if_true, Option.getD_some, h6, Bool.and_false,
      assocEmplace, h5, Except.ok.injEq]
    rw [assocAssign_eq_self hD]

/-- The parser state after `[s]` and `aa = "1"`. -/
def c6State : LanguageState :=
  ⟨[("s".toList, [("aa".toList, "1".toList)])], langversion.init, [], [],
    "s".toList⟩

theorem C6_witness :
    isEmptyOrComment "aa = \"2\"".toList = false ∧
    isSection (removeInlineComments "aa = \"2\"".toList) = none ∧
    isTranslation (removeInlineComments "aa = \"2\"".toList)
      = some ("aa".toList, "2".toList) ∧
    c6State.currentSection.isEmpty = false ∧
    (assocFind? (trim "aa".toList bracketChars)
      ((assocFind? c6State.currentSection c6State.translationDict).getD
        [])).isSome = true ∧
    isMultilineField "aa".toList = false ∧
    parseLine c6State "aa = \"2\"".toList = .ok c6State :=
  ⟨by decide, by decide, by decide, by decide, by decide, by decide,
   C6_thm c6State "aa = \"2\"".toList "aa".toList "2".toList (by decide)
     (by decide) (by decide) (by decide) (by decide) (by decide)⟩

/-- C6 (counterexample to the claim as stated).  In the document
`[s]` / `aa = "1"` / `aa = "2"` the claim says an unexpanded lookup of
`aa` returns `"2"` (the last declaration); the code returns `"1"` (the
first). -/
theorem C6_counterexample :
    (borr.fromString "[s]\naa = \"1\"\naa = \"2\"".toList).map
      (fun st =>
        getString 2 envEmpty st.translationDict "s".toList "aa".toList false)
      = Except.ok (some (some "1".toList)) := by decide

theorem C10_witness :
    assocFind? "s".toList c10Dict = some [("f".toList, ['$', '{', 'a', '}'])] ∧
    assocFind? "f".toList [("f".toList, ['$', '{', 'a', '}'])]
      = some ['$', '{', 'a', '}'] ∧
    (containsVariable ['$', '{', 'a', '}'] = none ∧
     getString 2 envEmpty c10Dict "s".toList "f".toList true
       = some (some ['$', '{', 'a', '}'])) :=
  ⟨by decide, by decide,
   C10_thm 'a' envEmpty c10Dict "s".toList "f".toList
     [("f".toList, ['$', '{', 'a', '}'])] 0 (by decide) (by decide)⟩

end borr
